import Mathlib

/-!
Verification of the PortManager core (src/portmanager.py): profile storage,
port-forward management, SSH command construction and the connection
launcher, shallowly embedded in Lean.

Conventions of the embedding:
- A Python dict loaded from JSON is modelled by a structure whose optional
  keys become Option fields; an access d.get(k, default) becomes
  (field).getD default, and a direct access d[k] becomes a plain field.
- The profiles file content (a JSON object keyed by profile name) is
  modelled as an association list, List (String × Profile), in insertion
  order, which is exactly what a Python dict preserves.
- The local filesystem is a parameter: os.path.expanduser is an arbitrary
  function expand : String → String and os.path.exists an arbitrary
  predicate pathExists : String → Bool.
-/

/-- A port-forward record as stored in JSON and as read by the code.
The code reads fwd.get('type', 'local') and fwd.get('remote_host',
'localhost'), so those two keys may be absent (Option); it reads
fwd['local_port'] and fwd['remote_port'] directly, so those are mandatory
(integers, per the data model). -/
structure Forward where
  type : Option String
  local_port : Int
  remote_port : Int
  remote_host : Option String
deriving DecidableEq

/-- A profile record as stored in JSON. host and user are read directly
(profile['host'], profile['user']); port is read with profile.get('port', 22);
key and forwards are read tolerantly ('key' in profile / profile.get('forwards', [])).
created is a timestamp string; last_used is a timestamp string or null. -/
structure Profile where
  host : String
  user : String
  port : Option Int
  key : Option String
  forwards : Option (List Forward)
  created : Option String
  last_used : Option String
deriving DecidableEq

/-- The profiles mapping: a JSON object, i.e. an insertion-ordered
association list from profile name to profile record. -/
abbrev ProfilesMap := List (String × Profile)

/-- Python membership test: name in profiles. -/
def dictHas (m : ProfilesMap) (k : String) : Bool :=
  (m.find? (fun e => e.1 == k)).isSome

/-- Python read access profiles.get(name) / profiles[name]: the entry
stored under a key (dicts hold at most one entry per key; on a list with
duplicate keys this returns the first, which is the one a dict would hold). -/
def dictGet? (m : ProfilesMap) (k : String) : Option Profile :=
  (m.find? (fun e => e.1 == k)).map (fun e => e.2)

/-- Python del profiles[name]: drop the entry stored under the key. -/
def dictErase (m : ProfilesMap) (k : String) : ProfilesMap :=
  m.filter (fun e => !(e.1 == k))

/-- The body of the loop in build_ssh_command (portmanager.py lines 216-227):
the two tokens emitted for one forward.
fwd_type = fwd.get('type', 'local'); local = fwd['local_port'];
remote = fwd['remote_port']; remote_host = fwd.get('remote_host', 'localhost');
then -L "local:remote_host:remote" if the type is 'local',
else -R "remote:remote_host:local". -/
def forwardTokens (fwd : Forward) : List String :=
  let fwd_type := fwd.type.getD "local"
  let l := fwd.local_port
  let r := fwd.remote_port
  let rh := fwd.remote_host.getD "localhost"
  if fwd_type = "local" then
    ["-L", toString l ++ ":" ++ rh ++ ":" ++ toString r]
  else
    ["-R", toString r ++ ":" ++ rh ++ ":" ++ toString l]

/-- build_ssh_command (portmanager.py lines 200-232). cmd starts as ['ssh'];
a ['-p', str(port)] pair is appended when profile.get('port', 22) != 22;
an ['-i', key_path] pair is appended when the key is set, truthy, and the
expanded path exists; each forward appends its two tokens in stored order;
finally the destination token "user@host" is appended. -/
def build_ssh_command (expand : String → String) (pathExists : String → Bool)
    (profile : Profile) : List String :=
  let cmd : List String := ["ssh"]
  let cmd := if profile.port.getD 22 ≠ 22 then
      cmd ++ ["-p", toString (profile.port.getD 22)]
    else cmd
  let cmd := match profile.key with
    | some k =>
      if k ≠ "" then
        (if pathExists (expand k) then cmd ++ ["-i", expand k] else cmd)
      else cmd
    | none => cmd
  let cmd := (profile.forwards.getD []).foldl (fun c f => c ++ forwardTokens f) cmd
  cmd ++ [profile.user ++ "@" ++ profile.host]

/-- The token pair appended for the port option, as a standalone segment. -/
def portTokens (profile : Profile) : List String :=
  if profile.port.getD 22 ≠ 22 then ["-p", toString (profile.port.getD 22)] else []

/-- The token pair appended for the identity file, as a standalone segment. -/
def keyTokens (expand : String → String) (pathExists : String → Bool)
    (profile : Profile) : List String :=
  match profile.key with
  | some k =>
    if k ≠ "" then
      (if pathExists (expand k) then ["-i", expand k] else [])
    else []
  | none => []

/-- Whether the consecutive token pair [a, b] occurs in a token list. -/
def hasPair (a b : String) : List String → Bool
  | x :: y :: l => (x == a && y == b) || hasPair a b (y :: l)
  | _ => false

theorem foldl_append_eq_flatten {α β : Type} (g : α → List β) :
    ∀ (l : List α) (init : List β),
      l.foldl (fun c f => c ++ g f) init = init ++ (l.map g).flatten := by
  intro l
  induction l with
  | nil => intro init; simp
  | cons f l ih => intro init; simp [ih, List.append_assoc]

/-- The command splits into the five segments of the algorithm, in order. -/
theorem build_ssh_command_eq (expand : String → String) (pathExists : String → Bool)
    (p : Profile) :
    build_ssh_command expand pathExists p =
      ["ssh"] ++ portTokens p ++ keyTokens expand pathExists p
        ++ ((p.forwards.getD []).map forwardTokens).flatten
        ++ [p.user ++ "@" ++ p.host] := by
  unfold build_ssh_command portTokens keyTokens
  rcases hk : p.key with _ | k
  · by_cases hp : p.port.getD 22 = 22 <;>
      simp [hp, foldl_append_eq_flatten, List.append_assoc]
  · by_cases hp : p.port.getD 22 = 22 <;>
      by_cases hke : k = "" <;>
      by_cases hex : pathExists (expand k) <;>
      simp [hp, hke, hex, foldl_append_eq_flatten, List.append_assoc]

/-- C1: for every profile, build emits, for each forward in its position,
the pair ['-L', "local:remote_host:remote"] when the direction is local and
['-R', "remote:remote_host:local"] when it is remote (the remote-forward
value lists the remote port first), and all these pairs come before the
final 'user@host' destination token, which closes the command. -/
theorem C1_forward_pairs (expand : String → String) (pathExists : String → Bool)
    (p : Profile) :
    ∃ front : List String,
      build_ssh_command expand pathExists p =
        front
        ++ ((p.forwards.getD []).map (fun f =>
              if f.type.getD "local" = "local" then
                ["-L", toString f.local_port ++ ":" ++ f.remote_host.getD "localhost"
                        ++ ":" ++ toString f.remote_port]
              else
                ["-R", toString f.remote_port ++ ":" ++ f.remote_host.getD "localhost"
                        ++ ":" ++ toString f.local_port])).flatten
        ++ [p.user ++ "@" ++ p.host] := by
  refine ⟨["ssh"] ++ portTokens p ++ keyTokens expand pathExists p, ?_⟩
  rw [build_ssh_command_eq]
  rfl

/-- The ten decimal digit characters. -/
def decDigits : List Char := ("0123456789" : String).data

theorem digitChar_mem_decDigits : ∀ m : Nat, m < 10 → Nat.digitChar m ∈ decDigits := by
  decide

theorem toDigitsCore_mem :
    ∀ (fuel n : Nat) (ds : List Char) (c : Char),
      c ∈ Nat.toDigitsCore 10 fuel n ds → c ∈ ds ∨ c ∈ decDigits := by
  intro fuel
  induction fuel with
  | zero =>
    intro n ds c hc
    exact Or.inl hc
  | succ fuel ih =>
    intro n ds c hc
    simp only [Nat.toDigitsCore] at hc
    by_cases h0 : n / 10 = 0
    · rw [if_pos h0] at hc
      rcases List.mem_cons.mp hc with h | h
      · exact Or.inr (h ▸ digitChar_mem_decDigits _ (Nat.mod_lt _ (by norm_num)))
      · exact Or.inl h
    · rw [if_neg h0] at hc
      rcases ih (n / 10) (Nat.digitChar (n % 10) :: ds) c hc with h | h
      · rcases List.mem_cons.mp h with h | h
        · exact Or.inr (h ▸ digitChar_mem_decDigits _ (Nat.mod_lt _ (by norm_num)))
        · exact Or.inl h
      · exact Or.inr h

theorem natRepr_mem_decDigits (n : Nat) : ∀ c ∈ (Nat.repr n).data, c ∈ decDigits := by
  intro c hc
  have hd : (Nat.repr n).data = Nat.toDigitsCore 10 (n + 1) n [] := rfl
  rw [hd] at hc
  rcases toDigitsCore_mem (n + 1) n [] c hc with h | h
  · exact absurd h (List.not_mem_nil c)
  · exact h

/-- str(n) of an integer is never the literal token "-i": its first
character is a digit or the sign followed by a digit. -/
theorem int_toString_ne_di (n : Int) : toString n ≠ "-i" := by
  intro he
  cases n with
  | ofNat m =>
    have h1 : toString (Int.ofNat m) = Nat.repr m := rfl
    rw [h1] at he
    have hd : (Nat.repr m).data = ['-', 'i'] := by rw [he]
    have := natRepr_mem_decDigits m '-' (by rw [hd]; exact List.mem_cons_self _ _)
    exact absurd this (by decide)
  | negSucc m =>
    have h1 : toString (Int.negSucc m) = "-" ++ Nat.repr (m + 1) := rfl
    rw [h1] at he
    have hd : '-' :: (Nat.repr (m + 1)).data = ['-', 'i'] := by
      have h2 := congrArg String.data he
      simpa using h2
    have h3 : (Nat.repr (m + 1)).data = ['i'] := by
      injection hd
    have := natRepr_mem_decDigits (m + 1) 'i' (by rw [h3]; exact List.mem_cons_self _ _)
    exact absurd this (by decide)

theorem ne_of_data_mem {s t : String} {c : Char} (hc : c ∈ s.data) (hnc : c ∉ t.data) :
    s ≠ t := fun he => hnc (he ▸ hc)

theorem colon_mem_data (a b c : String) : ':' ∈ (a ++ ":" ++ b ++ ":" ++ c).data := by
  have h : (':' : Char) ∈ (":" : String).data := by decide
  simp only [String.data_append, List.mem_append]
  tauto

theorem at_mem_data (u h : String) : '@' ∈ (u ++ "@" ++ h).data := by
  have ha : ('@' : Char) ∈ ("@" : String).data := by decide
  simp only [String.data_append, List.mem_append]
  tauto

/-- Each forward contributes exactly one flag token, -L or -R, followed by
one value token, and the value always contains a colon. -/
theorem forwardTokens_shape (f : Forward) :
    ∃ v : String,
      (forwardTokens f = ["-L", v] ∨ forwardTokens f = ["-R", v]) ∧ ':' ∈ v.data := by
  unfold forwardTokens
  by_cases h : f.type.getD "local" = "local"
  · exact ⟨toString f.local_port ++ ":" ++ f.remote_host.getD "localhost" ++ ":"
        ++ toString f.remote_port, Or.inl (by simp [h]), colon_mem_data _ _ _⟩
  · exact ⟨toString f.remote_port ++ ":" ++ f.remote_host.getD "localhost" ++ ":"
        ++ toString f.local_port, Or.inr (by simp [h]), colon_mem_data _ _ _⟩

/-- The key segment is either empty or a single ['-i', key_path] pair. -/
theorem keyTokens_shape (expand : String → String) (pathExists : String → Bool)
    (p : Profile) :
    keyTokens expand pathExists p = []
      ∨ ∃ kp, keyTokens expand pathExists p = ["-i", kp] := by
  unfold keyTokens
  rcases p.key with _ | k
  · exact Or.inl rfl
  · by_cases h1 : k = ""
    · simp [h1]
    · by_cases h2 : pathExists (expand k)
      · exact Or.inr ⟨expand k, by simp [h1, h2]⟩
      · simp [h1, h2]

theorem hasPair_one (a b x : String) : hasPair a b [x] = false := rfl

theorem hasPair_cons_of {a b x : String} {l : List String} (hx : x ≠ a)
    (hl : hasPair a b l = false) : hasPair a b (x :: l) = false := by
  cases l with
  | nil => rfl
  | cons y ys =>
    show ((x == a && y == b) || hasPair a b (y :: ys)) = false
    rw [hl]
    simp [hx]

theorem hasPair_cons_head {a b x : String} {l : List String}
    (hh : ∀ y, l.head? = some y → y ≠ b) (hl : hasPair a b l = false) :
    hasPair a b (x :: l) = false := by
  cases l with
  | nil => rfl
  | cons y ys =>
    show ((x == a && y == b) || hasPair a b (y :: ys)) = false
    rw [hl]
    have hy : y ≠ b := hh y rfl
    simp [hy]

theorem hasPair_of_not_mem {a b : String} :
    ∀ {l : List String}, a ∉ l → hasPair a b l = false := by
  intro l
  induction l with
  | nil => intro _; rfl
  | cons x xs ih =>
    intro h
    have hx : x ≠ a := by
      intro he
      subst he
      exact h (List.mem_cons_self x xs)
    exact hasPair_cons_of hx (ih (fun hm => h (List.mem_cons_of_mem x hm)))

theorem hasPair_p22_flatten (l : List Forward) (tail : List String)
    (ht : hasPair "-p" "22" tail = false) :
    hasPair "-p" "22" ((l.map forwardTokens).flatten ++ tail) = false := by
  induction l with
  | nil => simpa using ht
  | cons f l ih =>
    obtain ⟨v, hfv, hcolon⟩ := forwardTokens_shape f
    have hvne : v ≠ "-p" := ne_of_data_mem hcolon (by decide)
    rcases hfv with h | h
    · have hre : (List.map forwardTokens (f :: l)).flatten ++ tail
          = "-L" :: v :: ((l.map forwardTokens).flatten ++ tail) := by
        simp [h]
      rw [hre]
      exact hasPair_cons_of (by decide) (hasPair_cons_of hvne ih)
    · have hre : (List.map forwardTokens (f :: l)).flatten ++ tail
          = "-R" :: v :: ((l.map forwardTokens).flatten ++ tail) := by
        simp [h]
      rw [hre]
      exact hasPair_cons_of (by decide) (hasPair_cons_of hvne ih)

theorem head_flatten_dest_ne_22 (l : List Forward) (u hs : String) :
    ∀ y, ((l.map forwardTokens).flatten ++ [u ++ "@" ++ hs]).head? = some y → y ≠ "22" := by
  cases l with
  | nil =>
    intro y hy
    simp at hy
    rw [← hy]
    exact ne_of_data_mem (at_mem_data u hs) (by decide)
  | cons f l =>
    obtain ⟨v, hfv, _⟩ := forwardTokens_shape f
    rcases hfv with h | h <;> intro y hy <;> simp [h] at hy <;> rw [← hy] <;> decide

/-- When the port is 22 (or absent), the command never contains the
consecutive pair ['-p', '22']: no emitted token other than a key path can
equal '-p', and the token after a key path is a forward flag or the
destination, never '22'. -/
theorem hasPair_p22_build (expand : String → String) (pathExists : String → Bool)
    (p : Profile) (hp : p.port.getD 22 = 22) :
    hasPair "-p" "22" (build_ssh_command expand pathExists p) = false := by
  rw [build_ssh_command_eq]
  have hport : portTokens p = [] := by simp [portTokens, hp]
  rw [hport]
  have hflat := hasPair_p22_flatten (p.forwards.getD []) [p.user ++ "@" ++ p.host]
    (hasPair_one _ _ _)
  rcases keyTokens_shape expand pathExists p with hkt | ⟨kp, hkt⟩ <;> rw [hkt]
  · have hre : (["ssh"] ++ [] ++ [] : List String)
        ++ ((p.forwards.getD []).map forwardTokens).flatten ++ [p.user ++ "@" ++ p.host]
        = "ssh" :: (((p.forwards.getD []).map forwardTokens).flatten
            ++ [p.user ++ "@" ++ p.host]) := by simp
    rw [hre]
    exact hasPair_cons_of (by decide) hflat
  · have hre : (["ssh"] ++ [] ++ ["-i", kp] : List String)
        ++ ((p.forwards.getD []).map forwardTokens).flatten ++ [p.user ++ "@" ++ p.host]
        = "ssh" :: "-i" :: kp :: (((p.forwards.getD []).map forwardTokens).flatten
            ++ [p.user ++ "@" ++ p.host]) := by simp
    rw [hre]
    exact hasPair_cons_of (by decide)
      (hasPair_cons_of (by decide)
        (hasPair_cons_head (head_flatten_dest_ne_22 _ _ _) hflat))

/-- C3: the command includes the consecutive pair ['-p', str(port)] exactly
when the effective port differs from 22; a port-22 profile with no key and
no forwards yields exactly ['ssh', 'user@host']; a port-2222 such profile
yields ['ssh', '-p', '2222', 'user@host']; and the command is never empty. -/
theorem C3_port_option (expand : String → String) (pathExists : String → Bool)
    (p : Profile) :
    (hasPair "-p" (toString (p.port.getD 22)) (build_ssh_command expand pathExists p) = true
      ↔ p.port.getD 22 ≠ 22)
    ∧ (p.port.getD 22 = 22 → p.key = none → p.forwards.getD [] = [] →
        build_ssh_command expand pathExists p = ["ssh", p.user ++ "@" ++ p.host])
    ∧ (p.port = some 2222 → p.key = none → p.forwards.getD [] = [] →
        build_ssh_command expand pathExists p
          = ["ssh", "-p", "2222", p.user ++ "@" ++ p.host])
    ∧ build_ssh_command expand pathExists p ≠ [] := by
  refine ⟨⟨?_, ?_⟩, ?_, ?_, ?_⟩
  · intro hpair hp
    rw [hp] at hpair
    have h22 : toString ((22 : Int)) = "22" := by decide
    rw [h22, hasPair_p22_build expand pathExists p hp] at hpair
    exact absurd hpair (by decide)
  · intro hp
    rw [build_ssh_command_eq]
    have hport : portTokens p = ["-p", toString (p.port.getD 22)] := by
      simp [portTokens, hp]
    rw [hport]
    have hre : (["ssh"] ++ ["-p", toString (p.port.getD 22)] : List String)
        ++ keyTokens expand pathExists p
        ++ ((p.forwards.getD []).map forwardTokens).flatten
        ++ [p.user ++ "@" ++ p.host]
        = "ssh" :: "-p" :: toString (p.port.getD 22) ::
            (keyTokens expand pathExists p
              ++ ((p.forwards.getD []).map forwardTokens).flatten
              ++ [p.user ++ "@" ++ p.host]) := by simp
    rw [hre]
    simp [hasPair]
  · intro hp hk hf
    rw [build_ssh_command_eq]
    simp [portTokens, keyTokens, hp, hk, hf]
  · intro hp hk hf
    rw [build_ssh_command_eq]
    have h2222 : toString ((2222 : Int)) = "2222" := by decide
    simp [portTokens, keyTokens, hp, hk, hf, h2222]
  · rw [build_ssh_command_eq]
    simp

/-- When the profile's key path does not exist (after expansion), the key
segment is empty and no token of the command is '-i'. -/
theorem build_not_mem_di (expand : String → String) (pathExists : String → Bool)
    (p : Profile) (hkey : ∀ k, p.key = some k → pathExists (expand k) = false) :
    "-i" ∉ build_ssh_command expand pathExists p := by
  have hkt : keyTokens expand pathExists p = [] := by
    unfold keyTokens
    rcases hk : p.key with _ | k
    · rfl
    · have hfalse := hkey k hk
      by_cases h1 : k = "" <;> simp [h1, hfalse]
  rw [build_ssh_command_eq, hkt]
  intro hmem
  simp only [List.append_nil, List.mem_append, List.mem_singleton, List.mem_cons,
    List.not_mem_nil, or_false] at hmem
  rcases hmem with ((h1 | h2) | h3) | h4
  · exact absurd h1 (by decide)
  · unfold portTokens at h2
    by_cases hp : p.port.getD 22 = 22
    · simp [hp] at h2
    · rw [if_pos hp] at h2
      rcases List.mem_cons.mp h2 with h | h
      · exact absurd h (by decide)
      · rcases List.mem_singleton.mp h with h
        exact absurd h.symm (int_toString_ne_di _)
  · rcases List.mem_flatten.mp h3 with ⟨s, hs, hmem⟩
    rcases List.mem_map.mp hs with ⟨f, _, rfl⟩
    obtain ⟨v, hfv, hcolon⟩ := forwardTokens_shape f
    have hvne : v ≠ "-i" := ne_of_data_mem hcolon (by decide)
    rcases hfv with h | h <;> rw [h] at hmem <;>
      rcases List.mem_cons.mp hmem with hx | hx
    · exact absurd hx (by decide)
    · exact hvne (List.mem_singleton.mp hx).symm
    · exact absurd hx (by decide)
    · exact hvne (List.mem_singleton.mp hx).symm
  · exact ne_of_data_mem (at_mem_data p.user p.host) (by decide) h4.symm

/-- C4: the builder is a pure function of the profile and the (fixed)
filesystem state: the same input yields the same token sequence (values are
immutable in the embedding, so the input profile cannot be mutated), and
when the expanded key path does not exist the output contains no '-i' token
and hence no ['-i', path] pair for any path. -/
theorem C4_builder_pure (expand : String → String) (pathExists : String → Bool)
    (p : Profile) (hkey : ∀ k, p.key = some k → pathExists (expand k) = false) :
    build_ssh_command expand pathExists p = build_ssh_command expand pathExists p
    ∧ "-i" ∉ build_ssh_command expand pathExists p
    ∧ ∀ path, hasPair "-i" path (build_ssh_command expand pathExists p) = false :=
  ⟨rfl, build_not_mem_di expand pathExists p hkey,
    fun _ => hasPair_of_not_mem (build_not_mem_di expand pathExists p hkey)⟩

/-- A concrete stored profile: bob@example.com on port 22, no key, no
forwards, as created by add('s1', 'example.com', 'bob'). -/
def egProfile : Profile :=
  { host := "example.com", user := "bob", port := some 22, key := none,
    forwards := some [], created := some "2024-01-01T00:00:00", last_used := none }

/-- The same profile on port 2222. -/
def egProfile2222 : Profile := { egProfile with port := some 2222 }

theorem C3_port_option_witness :
    build_ssh_command id (fun _ => false) egProfile2222
      = ["ssh", "-p", "2222", "bob@example.com"] :=
  (C3_port_option id (fun _ => false) egProfile2222).2.2.1 rfl rfl rfl

theorem C4_builder_pure_witness :
    "-i" ∉ build_ssh_command id (fun _ => false)
      { egProfile with key := some "~/.ssh/id_rsa" } :=
  (C4_builder_pure id (fun _ => false)
    { egProfile with key := some "~/.ssh/id_rsa" } (fun _ _ => rfl)).2.1

/-- C5: for forwards stored in order f1..fN, build emits their flag token
pairs contiguously and in the same relative order: the concatenation of the
pairs, in stored order, is a contiguous segment of the command. -/
theorem C5_forward_order (expand : String → String) (pathExists : String → Bool)
    (p : Profile) (fwds : List Forward) (h : p.forwards = some fwds) :
    ∃ front tail : List String,
      build_ssh_command expand pathExists p
        = front ++ (fwds.map forwardTokens).flatten ++ tail := by
  refine ⟨["ssh"] ++ portTokens p ++ keyTokens expand pathExists p,
    [p.user ++ "@" ++ p.host], ?_⟩
  rw [build_ssh_command_eq, h]
  rfl

/-- A local forward 8080 -> localhost:80 as stored by add_forward. -/
def egFwdL : Forward :=
  { type := some "local", local_port := 8080, remote_port := 80,
    remote_host := some "localhost" }

/-- A remote forward 3000 <- localhost:3000 as stored by add_forward. -/
def egFwdR : Forward :=
  { type := some "remote", local_port := 3000, remote_port := 3000,
    remote_host := some "localhost" }

/-- The example profile carrying the two example forwards. -/
def egProfileFwd : Profile := { egProfile with forwards := some [egFwdL, egFwdR] }

theorem C5_forward_order_witness :
    ∃ front tail : List String,
      build_ssh_command id (fun _ => false) egProfileFwd
        = front ++ ([egFwdL, egFwdR].map forwardTokens).flatten ++ tail :=
  C5_forward_order id (fun _ => false) egProfileFwd [egFwdL, egFwdR] rfl

theorem flatten_forwardTokens_length (l : List Forward) :
    ((l.map forwardTokens).flatten).length = 2 * l.length := by
  induction l with
  | nil => simp
  | cons f l ih =>
    have h2 : (forwardTokens f).length = 2 := by
      unfold forwardTokens
      by_cases h : f.type.getD "local" = "local" <;> simp [h]
    simp [ih, h2]
    omega

/-- C10: a forward record with no type key at all is emitted as a local
forward; a forward whose type is any string other than 'local' — not only
'remote' — is emitted as a '-R' pair; every forward yields exactly two
tokens (build never fails on a forward and never emits no flag), and the
command always has room for all of them plus the program and destination. -/
theorem C10_default_direction (expand : String → String) (pathExists : String → Bool)
    (f : Forward) (p : Profile) :
    (f.type = none →
      forwardTokens f = ["-L", toString f.local_port ++ ":"
        ++ f.remote_host.getD "localhost" ++ ":" ++ toString f.remote_port])
    ∧ (∀ t, f.type = some t → t ≠ "local" →
        forwardTokens f = ["-R", toString f.remote_port ++ ":"
          ++ f.remote_host.getD "localhost" ++ ":" ++ toString f.local_port])
    ∧ (forwardTokens f).length = 2
    ∧ 2 * (p.forwards.getD []).length < (build_ssh_command expand pathExists p).length := by
  refine ⟨?_, ?_, ?_, ?_⟩
  · intro ht
    simp [forwardTokens, ht]
  · intro t ht hne
    simp [forwardTokens, ht, hne]
  · unfold forwardTokens
    by_cases h : f.type.getD "local" = "local" <;> simp [h]
  · rw [build_ssh_command_eq]
    simp only [List.length_append, flatten_forwardTokens_length, List.length_cons,
      List.length_nil]
    omega

/-- A forward record carrying no type key and no remote_host key. -/
def egFwdNoType : Forward :=
  { type := none, local_port := 8080, remote_port := 80, remote_host := none }

theorem C10_default_direction_witness :
    forwardTokens egFwdNoType = ["-L", "8080:localhost:80"] :=
  (C10_default_direction id (fun _ => false) egFwdNoType egProfile).1 rfl

/-- delete_profile (portmanager.py lines 158-169), with the load/save I/O
made explicit: the input is the loaded mapping and the second component is
the mapping that ends up persisted. Returns False and leaves the store
untouched when the name is absent; otherwise deletes the entry, saves, and
returns True. -/
def delete_profile (name : String) (profiles : ProfilesMap) : Bool × ProfilesMap :=
  if dictHas profiles name then (true, dictErase profiles name)
  else (false, profiles)

/-- add_forward (portmanager.py lines 171-194), with load/save made
explicit. Returns False and leaves the store untouched when the profile is
absent; otherwise builds the forward record {'type': forward_type,
'local_port': ..., 'remote_port': ..., 'remote_host': ...}, initialises the
forwards list if the key is missing, appends, saves and returns True. -/
def add_forward (profile_name : String) (local_port remote_port : Int)
    (remote_host : String) (forward_type : String)
    (profiles : ProfilesMap) : Bool × ProfilesMap :=
  if !(dictHas profiles profile_name) then (false, profiles)
  else
    let forward : Forward :=
      { type := some forward_type, local_port := local_port,
        remote_port := remote_port, remote_host := some remote_host }
    (true, profiles.map (fun e =>
      if e.1 == profile_name then
        (e.1, { e.2 with forwards := some (e.2.forwards.getD [] ++ [forward]) })
      else e))

/-- The observable outcome of subprocess.run(cmd) in the foreground branch
of connect: the client ran and exited with some code (run does not raise on
a nonzero exit code), the operator hit the interrupt key (KeyboardInterrupt),
or the client could not be started (an exception such as FileNotFoundError). -/
inductive RunResult where
  | completed (exitCode : Int)
  | interrupted
  | launchFailed (msg : String)
deriving DecidableEq

/-- connect with background=False (portmanager.py lines 234-301), with
load/save and the subprocess outcome made explicit; now is the current
timestamp. An absent profile returns False with the store untouched. An
existing profile first gets last_used stamped and saved; then the client
runs: a completed run returns True whatever the exit code, an interrupt is
caught and returns True, and any exception from starting the client is
caught, reported, and returns False. -/
def connect (now : String) (profiles : ProfilesMap) (profile_name : String)
    (run : RunResult) : Bool × ProfilesMap :=
  match dictGet? profiles profile_name with
  | none => (false, profiles)
  | some profile =>
    let profile2 := { profile with last_used := some now }
    let profiles2 := profiles.map (fun e =>
      if e.1 == profile_name then (e.1, profile2) else e)
    match run with
    | RunResult.completed _ => (true, profiles2)
    | RunResult.interrupted => (true, profiles2)
    | RunResult.launchFailed _ => (false, profiles2)

theorem dictHas_eq_isSome (m : ProfilesMap) (k : String) :
    dictHas m k = (dictGet? m k).isSome := by
  unfold dictHas dictGet?
  cases h : m.find? (fun e => e.1 == k) <;> simp [h]

theorem dictGet?_cons_eq {e : String × Profile} {m : ProfilesMap} {k : String}
    (h : e.1 = k) : dictGet? (e :: m) k = some e.2 := by
  unfold dictGet?
  rw [List.find?_cons_of_pos]
  · rfl
  · simp [h]

theorem dictGet?_cons_ne {e : String × Profile} {m : ProfilesMap} {k : String}
    (h : e.1 ≠ k) : dictGet? (e :: m) k = dictGet? m k := by
  unfold dictGet?
  rw [List.find?_cons_of_neg]
  simp [h]

theorem dictGet?_erase_self (m : ProfilesMap) (name : String) :
    dictGet? (dictErase m name) name = none := by
  induction m with
  | nil => rfl
  | cons e m ih =>
    by_cases he : e.1 = name
    · have h1 : dictErase (e :: m) name = dictErase m name := by
        simp [dictErase, List.filter_cons, he]
      rw [h1]
      exact ih
    · have h1 : dictErase (e :: m) name = e :: dictErase m name := by
        simp [dictErase, List.filter_cons, he]
      rw [h1, dictGet?_cons_ne he]
      exact ih

theorem dictGet?_erase_frame (m : ProfilesMap) (name k : String) (hk : k ≠ name) :
    dictGet? (dictErase m name) k = dictGet? m k := by
  induction m with
  | nil => rfl
  | cons e m ih =>
    by_cases he : e.1 = name
    · have h1 : dictErase (e :: m) name = dictErase m name := by
        simp [dictErase, List.filter_cons, he]
      have he2 : e.1 ≠ k := by rw [he]; exact fun hx => hk hx.symm
      rw [h1, dictGet?_cons_ne he2]
      exact ih
    · have h1 : dictErase (e :: m) name = e :: dictErase m name := by
        simp [dictErase, List.filter_cons, he]
      rw [h1]
      by_cases he3 : e.1 = k
      · rw [dictGet?_cons_eq he3, dictGet?_cons_eq he3]
      · rw [dictGet?_cons_ne he3, dictGet?_cons_ne he3]
        exact ih

theorem dictErase_of_absent (m : ProfilesMap) (name : String)
    (h : (dictGet? m name).isSome = false) : dictErase m name = m := by
  induction m with
  | nil => rfl
  | cons e m ih =>
    by_cases he : e.1 = name
    · rw [dictGet?_cons_eq he] at h
      simp at h
    · rw [dictGet?_cons_ne he] at h
      have h1 : dictErase (e :: m) name = e :: dictErase m name := by
        simp [dictErase, List.filter_cons, he]
      rw [h1, ih h]

theorem dictErase_length (m : ProfilesMap) (name : String)
    (hnd : (m.map Prod.fst).Nodup) (h : (dictGet? m name).isSome = true) :
    (dictErase m name).length + 1 = m.length := by
  induction m with
  | nil => simp [dictGet?] at h
  | cons e m ih =>
    have hnd2 := hnd
    rw [List.map_cons, List.nodup_cons] at hnd2
    by_cases he : e.1 = name
    · have h1 : dictErase (e :: m) name = dictErase m name := by
        simp [dictErase, List.filter_cons, he]
      have habs : (dictGet? m name).isSome = false := by
        rcases hx : dictGet? m name with _ | q
        · rfl
        · exfalso
          unfold dictGet? at hx
          rcases hfind : m.find? (fun e => e.1 == name) with _ | r
          · rw [hfind] at hx; simp at hx
          · have hrmem := List.mem_of_find?_eq_some hfind
            have hrkey := List.find?_some hfind
            have hkeq : r.1 = name := by simpa using hrkey
            have hmem2 : r.1 ∈ m.map Prod.fst := List.mem_map_of_mem Prod.fst hrmem
            rw [hkeq, ← he] at hmem2
            exact hnd2.1 hmem2
      rw [h1, dictErase_of_absent m name habs]
      simp
    · have h1 : dictErase (e :: m) name = e :: dictErase m name := by
        simp [dictErase, List.filter_cons, he]
      rw [dictGet?_cons_ne he] at h
      rw [h1]
      simp only [List.length_cons]
      rw [ih hnd2.2 h]

/-- C8: delete returns True exactly when the name is present; on a missing
name it returns False and the persisted mapping is unchanged (same
contents, same size); on a present name the named entry is gone, every
other entry is untouched, and the size drops by exactly one. -/
theorem C8_delete (m : ProfilesMap) (name : String) (hnd : (m.map Prod.fst).Nodup) :
    ((delete_profile name m).1 = true ↔ (dictGet? m name).isSome = true)
    ∧ ((dictGet? m name).isSome = false → (delete_profile name m).2 = m)
    ∧ dictGet? (delete_profile name m).2 name = none
    ∧ (∀ k, k ≠ name → dictGet? (delete_profile name m).2 k = dictGet? m k)
    ∧ ((dictGet? m name).isSome = true →
        (delete_profile name m).2.length + 1 = m.length) := by
  have hif : delete_profile name m
      = if (dictGet? m name).isSome = true then (true, dictErase m name)
        else (false, m) := by
    unfold delete_profile
    rw [dictHas_eq_isSome]
  by_cases hs : (dictGet? m name).isSome = true
  · rw [hif, if_pos hs]
    refine ⟨?_, ?_, ?_, ?_, ?_⟩
    · simp [hs]
    · simp [hs]
    · exact dictGet?_erase_self m name
    · exact fun k hk => dictGet?_erase_frame m name k hk
    · exact fun _ => dictErase_length m name hnd hs
  · have hs2 : (dictGet? m name).isSome = false := by
      rcases hx : (dictGet? m name).isSome with _ | _
      · rfl
      · exact absurd hx hs
    have hnone : dictGet? m name = none := by
      rcases hx : dictGet? m name with _ | q
      · rfl
      · rw [hx] at hs2; simp at hs2
    rw [hif, if_neg hs]
    exact ⟨by simp [hs2], fun _ => rfl, hnone, fun k _ => rfl,
      fun hcon => absurd hcon hs⟩

/-- A concrete one-profile store. -/
def egStore : ProfilesMap := [("s1", egProfile)]

theorem C8_delete_witness : (delete_profile "nope" egStore).2 = egStore :=
  (C8_delete egStore "nope" (by decide)).2.1 (by decide)

theorem dictGet?_mapUpdate_self (m : ProfilesMap) (pname : String)
    (g : Profile → Profile) (p : Profile) (h : dictGet? m pname = some p) :
    dictGet? (m.map (fun e => if e.1 == pname then (e.1, g e.2) else e)) pname
      = some (g p) := by
  induction m with
  | nil => simp [dictGet?] at h
  | cons e m ih =>
    by_cases he : e.1 = pname
    · rw [dictGet?_cons_eq he] at h
      have hp : e.2 = p := Option.some.inj h
      have hcond : (e.1 == pname) = true := by simp [he]
      rw [List.map_cons, if_pos hcond, @dictGet?_cons_eq (e.1, g e.2) _ pname he, hp]
    · rw [dictGet?_cons_ne he] at h
      rw [List.map_cons, if_neg (by simp [he]), dictGet?_cons_ne he]
      exact ih h

theorem dictGet?_mapUpdate_frame (m : ProfilesMap) (pname : String)
    (g : Profile → Profile) (k : String) (hk : k ≠ pname) :
    dictGet? (m.map (fun e => if e.1 == pname then (e.1, g e.2) else e)) k
      = dictGet? m k := by
  induction m with
  | nil => rfl
  | cons e m ih =>
    by_cases he : e.1 = pname
    · have hek : e.1 ≠ k := by rw [he]; exact fun hx => hk hx.symm
      rw [List.map_cons, if_pos (by simp [he])]
      rw [@dictGet?_cons_ne (e.1, g e.2) _ k hek, dictGet?_cons_ne hek]
      exact ih
    · rw [List.map_cons, if_neg (by simp [he])]
      by_cases he2 : e.1 = k
      · rw [dictGet?_cons_eq he2, dictGet?_cons_eq he2]
      · rw [dictGet?_cons_ne he2, dictGet?_cons_ne he2]
        exact ih

/-- C9: append_forward on a missing profile returns False and leaves the
persisted store unchanged; on an existing profile it returns True and the
persisted store equals the old one except that the named profile's forwards
list gains the new record at its end — every other profile, and every other
field of the named profile, is unchanged. -/
theorem C9_append_forward (m : ProfilesMap) (pname : String)
    (lp rp : Int) (rh ft : String) :
    (dictGet? m pname = none →
      (add_forward pname lp rp rh ft m).1 = false
      ∧ (add_forward pname lp rp rh ft m).2 = m)
    ∧ (∀ p, dictGet? m pname = some p →
        (add_forward pname lp rp rh ft m).1 = true
        ∧ dictGet? (add_forward pname lp rp rh ft m).2 pname
            = some { host := p.host, user := p.user, port := p.port, key := p.key,
                     forwards := some (p.forwards.getD []
                       ++ [{ type := some ft, local_port := lp, remote_port := rp,
                             remote_host := some rh }]),
                     created := p.created, last_used := p.last_used }
        ∧ ∀ k, k ≠ pname →
            dictGet? (add_forward pname lp rp rh ft m).2 k = dictGet? m k) := by
  constructor
  · intro hnone
    have hhas : dictHas m pname = false := by
      rw [dictHas_eq_isSome, hnone]
      rfl
    constructor
    · simp [add_forward, hhas]
    · simp [add_forward, hhas]
  · intro p hp
    have hhas : dictHas m pname = true := by
      rw [dictHas_eq_isSome, hp]
      rfl
    have h2 : (add_forward pname lp rp rh ft m).2
        = m.map (fun e =>
            if e.1 == pname then
              (e.1, { e.2 with forwards := some (e.2.forwards.getD []
                ++ [{ type := some ft, local_port := lp, remote_port := rp,
                      remote_host := some rh }]) })
            else e) := by
      simp [add_forward, hhas]
    refine ⟨by simp [add_forward, hhas], ?_, ?_⟩
    · rw [h2]
      exact dictGet?_mapUpdate_self m pname
        (fun q => { q with forwards := some (q.forwards.getD []
          ++ [{ type := some ft, local_port := lp, remote_port := rp,
                remote_host := some rh }]) }) p hp
    · intro k hk
      rw [h2]
      exact dictGet?_mapUpdate_frame m pname
        (fun q => { q with forwards := some (q.forwards.getD []
          ++ [{ type := some ft, local_port := lp, remote_port := rp,
                remote_host := some rh }]) }) k hk

theorem C9_append_forward_witness :
    (add_forward "s1" 8080 80 "localhost" "local" egStore).1 = true :=
  ((C9_append_forward egStore "s1" 8080 80 "localhost" "local").2
    egProfile (by decide)).1

/-- C2 as amended: for an existing profile, a foreground connect returns
False exactly when the external client cannot be started (an exception is
raised while launching); a completed run — with any exit code, normal or
abnormal — and an operator interrupt both return True. -/
theorem C2_launch_outcomes (now : String) (m : ProfilesMap) (name : String)
    (run : RunResult) (h : (dictGet? m name).isSome = true) :
    ((∃ e, run = RunResult.launchFailed e) → (connect now m name run).1 = false)
    ∧ (run = RunResult.interrupted → (connect now m name run).1 = true)
    ∧ (∀ rc, run = RunResult.completed rc → (connect now m name run).1 = true) := by
  rcases hg : dictGet? m name with _ | profile
  · rw [hg] at h
    simp at h
  · refine ⟨?_, ?_, ?_⟩
    · rintro ⟨e, rfl⟩
      simp [connect, hg]
    · rintro rfl
      simp [connect, hg]
    · rintro rc rfl
      simp [connect, hg]

theorem C2_launch_outcomes_witness :
    (connect "2024-01-02T00:00:00" egStore "s1" (RunResult.launchFailed "boom")).1
      = false :=
  (C2_launch_outcomes "2024-01-02T00:00:00" egStore "s1"
    (RunResult.launchFailed "boom") (by decide)).1 ⟨"boom", rfl⟩

/-- C2 as stated is false on the code: with the profile s1 present, a
foreground connect whose client run completes with the abnormal exit code
255 returns True, not False — subprocess.run is called without check, so an
abnormal exit raises nothing and the function falls through to return True. -/
theorem C2_counterexample :
    (dictGet? egStore "s1").isSome = true
    ∧ (255 : Int) ≠ 0
    ∧ (connect "2024-01-02T00:00:00" egStore "s1" (RunResult.completed 255)).1
        = true := by
  refine ⟨by decide, by decide, by decide⟩

/-- A JSON value, as produced by json.dump and consumed by json.load. -/
inductive Json where
  | null
  | bool (b : Bool)
  | num (n : Int)
  | str (s : String)
  | arr (items : List Json)
  | obj (entries : List (String × Json))

/-- Dict lookup inside a decoded JSON object. -/
def jGet? (kvs : List (String × Json)) (k : String) : Option Json :=
  (kvs.find? (fun e => e.1 == k)).map (fun e => e.2)

/-- The JSON object json.dump writes for one forward record: the dict built
by add_forward, with a key present exactly when the corresponding field is
set (type and remote_host may be absent in hand-written files; add_forward
itself always writes all four keys). -/
def encodeForward (f : Forward) : Json :=
  Json.obj ((match f.type with | some t => [("type", Json.str t)] | none => [])
    ++ [("local_port", Json.num f.local_port), ("remote_port", Json.num f.remote_port)]
    ++ (match f.remote_host with | some h => [("remote_host", Json.str h)] | none => []))

/-- The JSON object json.dump writes for one profile record: host and user
always present; port, created, key and forwards present exactly when set
(add_profile always writes port, created and forwards, and writes key only
when truthy); last_used always present, as null when unset — exactly
add_profile's 'last_used': None. -/
def encodeProfile (p : Profile) : Json :=
  Json.obj ([("host", Json.str p.host), ("user", Json.str p.user)]
    ++ (match p.port with | some n => [("port", Json.num n)] | none => [])
    ++ (match p.created with | some s => [("created", Json.str s)] | none => [])
    ++ [("last_used", match p.last_used with | some s => Json.str s | none => Json.null)]
    ++ (match p.key with | some s => [("key", Json.str s)] | none => [])
    ++ (match p.forwards with
        | some l => [("forwards", Json.arr (l.map encodeForward))]
        | none => []))

/-- The JSON object json.dump writes for the whole profiles mapping. -/
def encodeProfiles (m : ProfilesMap) : Json :=
  Json.obj (m.map (fun e => (e.1, encodeProfile e.2)))

/-- Reading a parsed JSON value back as a forward record, by key, the way
the code reads it: ports are required integers, type and remote_host are
optional strings (an absent key becomes none, matching .get with default). -/
def decodeForward (j : Json) : Option Forward :=
  match j with
  | Json.obj kvs =>
    match jGet? kvs "local_port", jGet? kvs "remote_port" with
    | some (Json.num lp), some (Json.num rp) =>
      some { type := (match jGet? kvs "type" with
                      | some (Json.str t) => some t
                      | _ => none),
             local_port := lp, remote_port := rp,
             remote_host := (match jGet? kvs "remote_host" with
                             | some (Json.str h) => some h
                             | _ => none) }
    | _, _ => none
  | _ => none

/-- Reading a parsed JSON array back as the ordered forwards list. -/
def decodeForwards : List Json → Option (List Forward)
  | [] => some []
  | j :: js =>
    match decodeForward j, decodeForwards js with
    | some f, some fs => some (f :: fs)
    | _, _ => none

/-- Reading a parsed JSON value back as a profile record, by key: host and
user are required strings; port, key, created, forwards are optional; a
null or absent last_used becomes none. -/
def decodeProfile (j : Json) : Option Profile :=
  match j with
  | Json.obj kvs =>
    match jGet? kvs "host", jGet? kvs "user" with
    | some (Json.str hs), some (Json.str us) =>
      match jGet? kvs "forwards" with
      | some (Json.arr js) =>
        match decodeForwards js with
        | some fs =>
          some { host := hs, user := us,
                 port := (match jGet? kvs "port" with
                          | some (Json.num n) => some n
                          | _ => none),
                 key := (match jGet? kvs "key" with
                         | some (Json.str s) => some s
                         | _ => none),
                 forwards := some fs,
                 created := (match jGet? kvs "created" with
                             | some (Json.str s) => some s
                             | _ => none),
                 last_used := (match jGet? kvs "last_used" with
                               | some (Json.str s) => some s
                               | _ => none) }
        | none => none
      | none =>
        some { host := hs, user := us,
               port := (match jGet? kvs "port" with
                        | some (Json.num n) => some n
                        | _ => none),
               key := (match jGet? kvs "key" with
                       | some (Json.str s) => some s
                       | _ => none),
               forwards := none,
               created := (match jGet? kvs "created" with
                           | some (Json.str s) => some s
                           | _ => none),
               last_used := (match jGet? kvs "last_used" with
                             | some (Json.str s) => some s
                             | _ => none) }
      | some _ => none
    | _, _ => none
  | _ => none

/-- Reading a parsed JSON object back as the name-to-profile mapping. -/
def decodeEntries : List (String × Json) → Option ProfilesMap
  | [] => some []
  | (k, v) :: rest =>
    match decodeProfile v, decodeEntries rest with
    | some p, some m2 => some ((k, p) :: m2)
    | _, _ => none

def decodeProfiles : Json → Option ProfilesMap
  | Json.obj kvs => decodeEntries kvs
  | _ => none

/-- The state of the profiles file on disk: missing, holding bytes that
json.load rejects, or holding the serialization of a JSON value. The JSON
text codec itself is Python's json module, an external collaborator: a
successful json.load of a file written by json.dump yields back the dumped
value, so the file is modelled by the value it parses to. -/
inductive FileState where
  | absent
  | unparseable (bytes : List Nat)
  | parsed (j : Json)

/-- save_profiles (portmanager.py lines 54-58): json.dump of the mapping,
overwriting the file. -/
def save_profiles (m : ProfilesMap) : FileState :=
  FileState.parsed (encodeProfiles m)

/-- load_profiles (portmanager.py lines 44-52): an absent file yields the
empty dict; a json.load failure is swallowed by the bare except and yields
the empty dict; otherwise the parsed object is returned, read back into the
typed mapping. -/
def load_profiles : FileState → ProfilesMap
  | FileState.absent => []
  | FileState.unparseable _ => []
  | FileState.parsed j => (decodeProfiles j).getD []

theorem decodeForward_encodeForward (f : Forward) :
    decodeForward (encodeForward f) = some f := by
  rcases f with ⟨t, lp, rp, rh⟩
  rcases t with _ | t <;> rcases rh with _ | rh <;> rfl

theorem decodeForwards_map_encode (l : List Forward) :
    decodeForwards (l.map encodeForward) = some l := by
  induction l with
  | nil => rfl
  | cons f l ih =>
    simp [decodeForwards, decodeForward_encodeForward f, ih]

theorem decodeProfile_encodeProfile (p : Profile) :
    decodeProfile (encodeProfile p) = some p := by
  rcases p with ⟨hs, us, port, key, fwds, created, lu⟩
  rcases fwds with _ | fwds
  · rcases port with _ | port <;> rcases key with _ | key <;>
      rcases created with _ | created <;> rcases lu with _ | lu <;> rfl
  · rcases port with _ | port <;> rcases key with _ | key <;>
      rcases created with _ | created <;> rcases lu with _ | lu <;>
      simp [encodeProfile, decodeProfile, jGet?, decodeForwards_map_encode]

/-- C6: saving any mapping and loading it back yields an equal mapping,
entry for entry and field for field. -/
theorem C6_round_trip (m : ProfilesMap) :
    load_profiles (save_profiles m) = m := by
  have hdec : ∀ mm : ProfilesMap,
      decodeEntries (mm.map (fun e => (e.1, encodeProfile e.2))) = some mm := by
    intro mm
    induction mm with
    | nil => rfl
    | cons e mm ih =>
      simp [decodeEntries, decodeProfile_encodeProfile e.2, ih]
  show (decodeEntries (m.map (fun e => (e.1, encodeProfile e.2)))).getD [] = m
  rw [hdec m]
  rfl

/-- C7: load yields the empty mapping when the file is absent, and yields
the empty mapping for every byte content that fails to parse as JSON; the
failure is swallowed, never surfaced. -/
theorem C7_load_tolerates_corruption :
    load_profiles FileState.absent = []
    ∧ ∀ bytes : List Nat, load_profiles (FileState.unparseable bytes) = [] :=
  ⟨rfl, fun _ => rfl⟩
